import Mathlib

/-!
Verification of the content modeling and query layer of the blog-portfolio
repository (contentlayer.config.ts, the list pages under src/app, and the
ProjectCard component), via a shallow embedding of the relevant TypeScript
into Lean.

Strings are embedded as Lean `String`, JavaScript numbers arising from
`Date.getTime()` and the `order` field as `Int`, arrays as `List`, and the
objects built by `reduce` as association lists in insertion order.
-/

/-! ### JavaScript `String.prototype.replace` with a string pattern

`s.replace(pat, repl)` replaces only the first occurrence of `pat` in `s`
(and returns `s` unchanged when `pat` does not occur).  The slug and url
computed fields in contentlayer.config.ts are built from this operation.
-/

/-- Core of `String.prototype.replace` on character lists: replace the
first occurrence of `pat` by `repl`, scanning left to right. -/
def replaceFirstAux (pat repl : List Char) : List Char → List Char
  | [] => if pat.isEmpty then repl else []
  | c :: rest =>
    if pat.isPrefixOf (c :: rest) then repl ++ (c :: rest).drop pat.length
    else c :: replaceFirstAux pat repl rest

/-- JavaScript `s.replace(pat, repl)` for a plain string pattern. -/
def jsReplaceFirst (s pat repl : String) : String :=
  ⟨replaceFirstAux pat.data repl.data s.data⟩

/-- Whether `pat` occurs as a contiguous segment of `l` (the condition under
which `replace` changes its input). -/
def hasSeg (pat : List Char) : List Char → Bool
  | [] => pat.isEmpty
  | c :: rest => pat.isPrefixOf (c :: rest) || hasSeg pat rest

theorem isPrefixOf_append (p l : List Char) : p.isPrefixOf (p ++ l) = true := by
  induction p with
  | nil => simp [List.isPrefixOf]
  | cons c cs ih => simp [List.isPrefixOf, ih]

theorem replaceFirstAux_append (c : Char) (cs repl l : List Char) :
    replaceFirstAux (c :: cs) repl ((c :: cs) ++ l) = repl ++ l := by
  have hp : (c :: cs).isPrefixOf (c :: (cs ++ l)) = true := by
    have h := isPrefixOf_append (c :: cs) l
    simp only [List.cons_append] at h
    exact h
  show replaceFirstAux (c :: cs) repl (c :: (cs ++ l)) = repl ++ l
  rw [replaceFirstAux, if_pos hp]
  simp [List.drop_succ_cons, List.drop_left]

theorem replaceFirstAux_append' (pat repl l : List Char) (h : pat.isEmpty = false) :
    replaceFirstAux pat repl (pat ++ l) = repl ++ l := by
  cases pat with
  | nil => simp [List.isEmpty] at h
  | cons c cs => exact replaceFirstAux_append c cs repl l

theorem replaceFirstAux_no_seg (pat repl : List Char) :
    ∀ l : List Char, hasSeg pat l = false → replaceFirstAux pat repl l = l
  | [], h => by
    unfold hasSeg at h
    simp [replaceFirstAux, h]
  | c :: rest, h => by
    unfold hasSeg at h
    rw [Bool.or_eq_false_iff] at h
    simp [replaceFirstAux, h.1, replaceFirstAux_no_seg pat repl rest h.2]

/-- `jsReplaceFirst` run on a string that begins with the (nonempty) pattern
deletes exactly the leading pattern. -/
theorem jsReplaceFirst_strip (pre rest : String) (h : pre.data.isEmpty = false) :
    jsReplaceFirst (pre ++ rest) pre "" = rest := by
  unfold jsReplaceFirst
  rw [String.data_append]
  rw [replaceFirstAux_append' pre.data "".data rest.data h]
  rfl

/-- `jsReplaceFirst` leaves a string with no occurrence of the pattern
unchanged. -/
theorem jsReplaceFirst_id (s pat : String) (h : hasSeg pat.data s.data = false) :
    jsReplaceFirst s pat "" = s := by
  unfold jsReplaceFirst
  rw [replaceFirstAux_no_seg pat.data "".data s.data h]

/-! ### Computed fields (contentlayer.config.ts)

`WritingPost.computedFields`: `slug` resolves to
`doc._raw.flattenedPath.replace("writing/", "")` and `url` to
`"/writing/" + doc._raw.flattenedPath.replace("writing/", "")`;
`PolyglotPost` does the same with `"polyglot/"`; `Project` declares only a
`slug` computed field, `flattenedPath.replace("projects/", "")`, and no url.
-/

def WritingPost.slugResolve (rawPath : String) : String :=
  jsReplaceFirst rawPath "writing/" ""

def WritingPost.urlResolve (rawPath : String) : String :=
  "/writing/" ++ jsReplaceFirst rawPath "writing/" ""

def PolyglotPost.slugResolve (rawPath : String) : String :=
  jsReplaceFirst rawPath "polyglot/" ""

def PolyglotPost.urlResolve (rawPath : String) : String :=
  "/polyglot/" ++ jsReplaceFirst rawPath "polyglot/" ""

def Project.slugResolve (rawPath : String) : String :=
  jsReplaceFirst rawPath "projects/" ""

/-- The full tuple of computed fields a `Project` document carries: only
`slug`.  (`WritingPost` and `PolyglotPost` carry `slug` and `url`.) -/
structure ProjectComputed where
  slug : String
deriving DecidableEq

def Project.computedFields (rawPath : String) : ProjectComputed :=
  ⟨Project.slugResolve rawPath⟩

/-- C1: for every materialized entry (whose rawPath starts with its kind's
namespace segment, as guaranteed by the filePathPattern), the computed slug
is the rawPath with the leading namespace segment removed, verbatim; url is
"/writing/" + slug for a WritingPost and "/polyglot/" + slug for a
PolyglotNote; and a Project record's computed fields contain only a slug,
no url. -/
theorem computed_slug_url_spec (rest : String) :
    WritingPost.slugResolve ("writing/" ++ rest) = rest ∧
    WritingPost.urlResolve ("writing/" ++ rest) =
      "/writing/" ++ WritingPost.slugResolve ("writing/" ++ rest) ∧
    PolyglotPost.slugResolve ("polyglot/" ++ rest) = rest ∧
    PolyglotPost.urlResolve ("polyglot/" ++ rest) =
      "/polyglot/" ++ PolyglotPost.slugResolve ("polyglot/" ++ rest) ∧
    Project.slugResolve ("projects/" ++ rest) = rest ∧
    (∀ pc : ProjectComputed, pc = ⟨pc.slug⟩) := by
  refine ⟨?_, rfl, ?_, rfl, ?_, fun pc => rfl⟩
  · exact jsReplaceFirst_strip "writing/" rest (by decide)
  · exact jsReplaceFirst_strip "polyglot/" rest (by decide)
  · exact jsReplaceFirst_strip "projects/" rest (by decide)

/-- C10 counterexample: slug derivation is not idempotent.  The rawPath
"writing/writing/a" is well formed for the pattern "writing/**/*.mdx"; its
derived slug is "writing/a", and applying the derivation to that slug
strips a further occurrence, yielding "a". -/
theorem slug_not_idempotent_cex :
    WritingPost.slugResolve "writing/writing/a" = "writing/a" ∧
    WritingPost.slugResolve (WritingPost.slugResolve "writing/writing/a") = "a" ∧
    ("a" : String) ≠ "writing/a" := by
  refine ⟨?_, ?_, by decide⟩ <;> rfl

/-- C10 amended: slug derivation is injective within well-formed input
(distinct rawPath values under the same namespace yield distinct slugs,
for each of the three namespaces), and it is idempotent exactly on the
slugs that do not themselves contain the namespace segment; a nested
rawPath such as "writing/writing/a" re-derives to a shorter slug. -/
theorem slug_injective_idem (r1 r2 rest : String)
    (h : hasSeg "writing/".data rest.data = false) :
    (WritingPost.slugResolve ("writing/" ++ r1) =
        WritingPost.slugResolve ("writing/" ++ r2) → r1 = r2) ∧
    (PolyglotPost.slugResolve ("polyglot/" ++ r1) =
        PolyglotPost.slugResolve ("polyglot/" ++ r2) → r1 = r2) ∧
    (Project.slugResolve ("projects/" ++ r1) =
        Project.slugResolve ("projects/" ++ r2) → r1 = r2) ∧
    WritingPost.slugResolve (WritingPost.slugResolve ("writing/" ++ rest)) =
      WritingPost.slugResolve ("writing/" ++ rest) := by
  refine ⟨?_, ?_, ?_, ?_⟩
  · intro he
    rwa [WritingPost.slugResolve, WritingPost.slugResolve,
      jsReplaceFirst_strip "writing/" r1 (by decide),
      jsReplaceFirst_strip "writing/" r2 (by decide)] at he
  · intro he
    rwa [PolyglotPost.slugResolve, PolyglotPost.slugResolve,
      jsReplaceFirst_strip "polyglot/" r1 (by decide),
      jsReplaceFirst_strip "polyglot/" r2 (by decide)] at he
  · intro he
    rwa [Project.slugResolve, Project.slugResolve,
      jsReplaceFirst_strip "projects/" r1 (by decide),
      jsReplaceFirst_strip "projects/" r2 (by decide)] at he
  · have hs : WritingPost.slugResolve ("writing/" ++ rest) = rest :=
      jsReplaceFirst_strip "writing/" rest (by decide)
    rw [hs]
    exact jsReplaceFirst_id rest "writing/" h

/-- Witness for `slug_injective_idem` at concrete inputs. -/
theorem slug_injective_idem_witness :
    hasSeg "writing/".data "my-post".data = false ∧
    ((WritingPost.slugResolve ("writing/" ++ "a") =
        WritingPost.slugResolve ("writing/" ++ "b") → ("a" : String) = "b") ∧
    (PolyglotPost.slugResolve ("polyglot/" ++ "a") =
        PolyglotPost.slugResolve ("polyglot/" ++ "b") → ("a" : String) = "b") ∧
    (Project.slugResolve ("projects/" ++ "a") =
        Project.slugResolve ("projects/" ++ "b") → ("a" : String) = "b") ∧
    WritingPost.slugResolve (WritingPost.slugResolve ("writing/" ++ "my-post")) =
      WritingPost.slugResolve ("writing/" ++ "my-post")) :=
  ⟨by decide, slug_injective_idem "a" "b" "my-post" (by decide)⟩


/-! ### Materialized records

The fields each page actually reads, with `date` embedded as the
millisecond timestamp `new Date(post.date).getTime()` produces, since the
query layer only ever compares dates through that conversion.
-/

/-- The `language` enum of PolyglotPost: options ["jp", "kr", "en", "es"]. -/
inductive LanguageCode
  | jp
  | kr
  | en
  | es
deriving DecidableEq

/-- The frontmatter string of a language code, as compared by
`post.language === selectedLanguage`. -/
def LanguageCode.code : LanguageCode → String
  | .jp => "jp"
  | .kr => "kr"
  | .en => "en"
  | .es => "es"

/-- The `status` enum of Project: options ["completed", "wip"]. -/
inductive ProjStatus
  | completed
  | wip
deriving DecidableEq

structure WritingPostRec where
  title : String
  date : Int
  description : String
  tags : List String
  image : Option String
  slug : String
  url : String
deriving DecidableEq

structure PolyglotPostRec where
  title : String
  date : Int
  description : String
  language : LanguageCode
  slug : String
  url : String
deriving DecidableEq

structure ProjectRec where
  title : String
  description : String
  technologies : List String
  github : Option String
  liveUrl : Option String
  image : Option String
  order : Option Int
  status : Option ProjStatus
  relatedPost : Option String
  slug : String
deriving DecidableEq

/-! ### Sorting (writing/page.tsx, polyglot/page.tsx, projects/page.tsx)

`Array.prototype.sort(cmp)` is specification-mandated to be stable and to
order the array consistently with the comparator; it is embedded as a
stable insertion sort over the relation "the comparator does not require a
swap", `cmp a b ≤ 0`.
-/

/-- Comparator of writing/page.tsx line 29:
`(a, b) => new Date(b.date).getTime() - new Date(a.date).getTime()`. -/
def chronoCmpW (a b : WritingPostRec) : Int := b.date - a.date

/-- Comparator of polyglot/page.tsx line 28, same expression. -/
def chronoCmpP (a b : PolyglotPostRec) : Int := b.date - a.date

/-- The body of the comparator of projects/page.tsx lines 29-39, as a
function of the two `order` fields. -/
def ordCmp : Option Int → Option Int → Int
  | some x, some y => x - y
  | some _, none => -1
  | none, some _ => 1
  | none, none => 0

/-- Comparator of projects/page.tsx lines 29-39. -/
def projCmp (a b : ProjectRec) : Int := ordCmp a.order b.order

def chronoRW (a b : WritingPostRec) : Prop := chronoCmpW a b ≤ 0

def chronoRP (a b : PolyglotPostRec) : Prop := chronoCmpP a b ≤ 0

def projR (a b : ProjectRec) : Prop := projCmp a b ≤ 0

instance : DecidableRel chronoRW := fun a b =>
  inferInstanceAs (Decidable (chronoCmpW a b ≤ 0))

instance : DecidableRel chronoRP := fun a b =>
  inferInstanceAs (Decidable (chronoCmpP a b ≤ 0))

instance : DecidableRel projR := fun a b =>
  inferInstanceAs (Decidable (projCmp a b ≤ 0))

theorem ordCmp_total (u v : Option Int) : ordCmp u v ≤ 0 ∨ ordCmp v u ≤ 0 := by
  rcases u with _ | x <;> rcases v with _ | y <;> simp [ordCmp] <;> omega

theorem ordCmp_trans (u v w : Option Int) (h1 : ordCmp u v ≤ 0)
    (h2 : ordCmp v w ≤ 0) : ordCmp u w ≤ 0 := by
  rcases u with _ | x <;> rcases v with _ | y <;> rcases w with _ | z <;>
    simp_all [ordCmp] <;> omega

instance : IsTotal WritingPostRec chronoRW :=
  ⟨fun a b => by simp only [chronoRW, chronoCmpW]; omega⟩

instance : IsTrans WritingPostRec chronoRW :=
  ⟨fun a b c h1 h2 => by simp only [chronoRW, chronoCmpW] at *; omega⟩

instance : IsTotal PolyglotPostRec chronoRP :=
  ⟨fun a b => by simp only [chronoRP, chronoCmpP]; omega⟩

instance : IsTrans PolyglotPostRec chronoRP :=
  ⟨fun a b c h1 h2 => by simp only [chronoRP, chronoCmpP] at *; omega⟩

instance : IsTotal ProjectRec projR :=
  ⟨fun a b => ordCmp_total a.order b.order⟩

instance : IsTrans ProjectRec projR :=
  ⟨fun a b c h1 h2 => ordCmp_trans a.order b.order c.order h1 h2⟩

/-- `sortedPosts` of writing/page.tsx: `allWritingPosts.sort(cmp)`. -/
def sortedWriting (l : List WritingPostRec) : List WritingPostRec :=
  List.insertionSort chronoRW l

/-- `sortedPosts` of polyglot/page.tsx: `allPolyglotPosts.sort(cmp)`. -/
def sortedPolyglot (l : List PolyglotPostRec) : List PolyglotPostRec :=
  List.insertionSort chronoRP l

/-- `sortedProjects` of projects/page.tsx: `allProjects.sort(cmp)`. -/
def sortedProjects (l : List ProjectRec) : List ProjectRec :=
  List.insertionSort projR l

/-! ### Stability of insertion sort with respect to a filter -/

theorem filter_orderedInsert_pos {α : Type} (r : α → α → Prop) [DecidableRel r]
    (p : α → Bool) (a : α) (h : ∀ b, ¬ r a b → p b = false) (ha : p a = true) :
    ∀ l : List α, (List.orderedInsert r a l).filter p = a :: l.filter p
  | [] => by simp [ha]
  | b :: l => by
    by_cases hr : r a b
    · simp [List.orderedInsert, hr, List.filter_cons, ha]
    · have hb : p b = false := h b hr
      simp [List.orderedInsert, hr, List.filter_cons, hb,
        filter_orderedInsert_pos r p a h ha l]

theorem filter_orderedInsert_neg {α : Type} (r : α → α → Prop) [DecidableRel r]
    (p : α → Bool) (a : α) (ha : p a = false) :
    ∀ l : List α, (List.orderedInsert r a l).filter p = l.filter p
  | [] => by simp [ha]
  | b :: l => by
    by_cases hr : r a b
    · simp [List.orderedInsert, hr, List.filter_cons, ha]
    · simp [List.orderedInsert, hr, List.filter_cons,
        filter_orderedInsert_neg r p a ha l]

/-- A stable sort does not reorder the records selected by a predicate that
is downward closed for the sorting relation: filtering the sorted list
gives the filtered input, in input order. -/
theorem filter_insertionSort {α : Type} (r : α → α → Prop) [DecidableRel r]
    (p : α → Bool) (H : ∀ a, p a = true → ∀ b, ¬ r a b → p b = false) :
    ∀ l : List α, (List.insertionSort r l).filter p = l.filter p
  | [] => rfl
  | a :: l => by
    by_cases ha : p a = true
    · rw [List.insertionSort, filter_orderedInsert_pos r p a (H a ha) ha,
        filter_insertionSort r p H l]
      simp [List.filter_cons, ha]
    · have ha' : p a = false := by revert ha; cases p a <;> simp
      rw [List.insertionSort, filter_orderedInsert_neg r p a ha',
        filter_insertionSort r p H l]
      simp [List.filter_cons, ha']

/-! ### C4: order-field sort of projects -/

/-- The ordering the spec demands between two adjacent records of the
sorted project list, as a function of their `order` fields. -/
def ordBefore : Option Int → Option Int → Prop
  | some x, some y => x ≤ y
  | some _, none => True
  | none, some _ => False
  | none, none => True

def projBefore (a b : ProjectRec) : Prop := ordBefore a.order b.order

theorem ordCmp_nonpos_before (u v : Option Int) (h : ordCmp u v ≤ 0) :
    ordBefore u v := by
  rcases u with _ | x <;> rcases v with _ | y <;>
    simp_all [ordCmp, ordBefore]

/-- Project A with order 2, B without order, C with order 1 (the spec's
worked example). -/
def projA : ProjectRec :=
  ⟨"A", "dA", [], none, none, none, some 2, none, none, "a"⟩

def projB : ProjectRec :=
  ⟨"B", "dB", [], none, none, none, none, none, none, "b"⟩

def projC : ProjectRec :=
  ⟨"C", "dC", [], none, none, none, some 1, none, none, "c"⟩

/-- C4: sorting a Project collection places every record with an `order`
value, in ascending `order`, before every record lacking one (any pair of
the output is related by `projBefore`), keeps order-less records in their
original relative position (filtering them out of the output equals
filtering them out of the input), and sorts the worked example
[A(2), B(-), C(1)] to [C, A, B]. -/
theorem project_order_sort_spec (l : List ProjectRec) :
    List.Pairwise projBefore (sortedProjects l) ∧
    (sortedProjects l).filter (fun p => p.order.isNone) =
      l.filter (fun p => p.order.isNone) ∧
    sortedProjects [projA, projB, projC] = [projC, projA, projB] := by
  refine ⟨?_, ?_, by decide⟩
  · exact (List.sorted_insertionSort projR l).imp
      (fun h => ordCmp_nonpos_before _ _ h)
  · apply filter_insertionSort
    intro a ha b hrb
    rcases hbo : b.order with _ | y
    · exfalso
      apply hrb
      show projCmp a b ≤ 0
      unfold projCmp
      rw [Option.isNone_iff_eq_none.mp ha, hbo]
      simp [ordCmp]
    · simp [hbo]

/-! ### C5: chronological sort -/

/-- C5: the chronological sorts of writing/page.tsx and polyglot/page.tsx
order records by `date` descending, and are stable: records with any fixed
date value appear in the output in their input order. -/
theorem chrono_sort_spec (lw : List WritingPostRec) (lp : List PolyglotPostRec)
    (d : Int) :
    List.Pairwise (fun a b : WritingPostRec => b.date ≤ a.date)
      (sortedWriting lw) ∧
    (sortedWriting lw).filter (fun p => p.date == d) =
      lw.filter (fun p => p.date == d) ∧
    List.Pairwise (fun a b : PolyglotPostRec => b.date ≤ a.date)
      (sortedPolyglot lp) ∧
    (sortedPolyglot lp).filter (fun p => p.date == d) =
      lp.filter (fun p => p.date == d) := by
  refine ⟨?_, ?_, ?_, ?_⟩
  · exact (List.sorted_insertionSort chronoRW lw).imp (fun h => by
      simp only [chronoRW, chronoCmpW] at h
      omega)
  · apply filter_insertionSort
    intro a ha b hrb
    simp only [chronoRW, chronoCmpW] at hrb
    simp only [beq_iff_eq] at ha
    simp only [beq_eq_false_iff_ne]
    omega
  · exact (List.sorted_insertionSort chronoRP lp).imp (fun h => by
      simp only [chronoRP, chronoCmpP] at h
      omega)
  · apply filter_insertionSort
    intro a ha b hrb
    simp only [chronoRP, chronoCmpP] at hrb
    simp only [beq_iff_eq] at ha
    simp only [beq_eq_false_iff_ne]
    omega

/-! ### C2: language counts (polyglot/page.tsx lines 42-52)

`sortedPosts.reduce((acc, post) => { acc[post.language] =
(acc[post.language] || 0) + 1; return acc; }, {})` builds a plain object.
A JavaScript object is embedded as an association list in property
insertion order: assigning to an absent key appends it, assigning to a
present key updates it in place.
-/

/-- Property read `acc[k]`: `some v` when present, `none` when absent. -/
def objGet : List (LanguageCode × Nat) → LanguageCode → Option Nat
  | [], _ => none
  | (k, v) :: rest, lang => if k = lang then some v else objGet rest lang

/-- Property write `acc[k] = n`. -/
def objSet : List (LanguageCode × Nat) → LanguageCode → Nat →
    List (LanguageCode × Nat)
  | [], lang, n => [(lang, n)]
  | (k, v) :: rest, lang, n =>
    if k = lang then (k, n) :: rest else (k, v) :: objSet rest lang n

/-- One step of the reduce: `acc[post.language] =
(acc[post.language] || 0) + 1`. -/
def countsStep (acc : List (LanguageCode × Nat)) (post : PolyglotPostRec) :
    List (LanguageCode × Nat) :=
  objSet acc post.language ((objGet acc post.language).getD 0 + 1)

/-- `languageCounts` of polyglot/page.tsx. -/
def languageCounts (l : List PolyglotPostRec) : List (LanguageCode × Nat) :=
  l.foldl countsStep []

/-- The stats section reads `languageCounts["jp"] || 0` etc. -/
def readCount (acc : List (LanguageCode × Nat)) (lang : LanguageCode) : Nat :=
  (objGet acc lang).getD 0

/-- Number of records of a given language in a collection. -/
def countLang (l : List PolyglotPostRec) (lang : LanguageCode) : Nat :=
  (l.filter (fun p => p.language == lang)).length

theorem objGet_objSet (k k' : LanguageCode) (n : Nat) :
    ∀ acc : List (LanguageCode × Nat),
      objGet (objSet acc k n) k' = if k = k' then some n else objGet acc k'
  | [] => by
    by_cases h : k = k' <;> simp [objGet, objSet, h]
  | (k0, v) :: rest => by
    by_cases h0 : k0 = k
    · subst h0
      by_cases h : k0 = k' <;> simp [objGet, objSet, h]
    · by_cases h : k0 = k'
      · subst h
        have hkk : ¬ k = k0 := fun he => h0 he.symm
        simp [objGet, objSet, h0, hkk, objGet_objSet k k0 n rest]
      · simp [objGet, objSet, h0, h, objGet_objSet k k' n rest]

theorem sum_objSet (k : LanguageCode) :
    ∀ acc : List (LanguageCode × Nat),
      ((objSet acc k ((objGet acc k).getD 0 + 1)).map Prod.snd).sum =
        (acc.map Prod.snd).sum + 1
  | [] => by simp [objGet, objSet]
  | (k0, v) :: rest => by
    by_cases h0 : k0 = k
    · subst h0
      simp [objGet, objSet]
      omega
    · simp [objGet, objSet, h0, sum_objSet k rest]
      omega

theorem counts_read_invariant (lang : LanguageCode) :
    ∀ (l : List PolyglotPostRec) (acc : List (LanguageCode × Nat)),
      readCount (l.foldl countsStep acc) lang =
        readCount acc lang + countLang l lang
  | [], acc => by simp [countLang, readCount]
  | p :: t, acc => by
    rw [List.foldl_cons, counts_read_invariant lang t (countsStep acc p)]
    have hstep : readCount (countsStep acc p) lang =
        readCount acc lang + (if p.language = lang then 1 else 0) := by
      unfold countsStep readCount
      rw [objGet_objSet]
      by_cases h : p.language = lang <;> simp [h]
    have hcnt : countLang (p :: t) lang =
        (if p.language = lang then 1 else 0) + countLang t lang := by
      unfold countLang
      rw [List.filter_cons]
      by_cases h : p.language = lang <;> simp [h] <;> omega
    rw [hstep, hcnt]
    omega

theorem counts_some_invariant (lang : LanguageCode) :
    ∀ (l : List PolyglotPostRec) (acc : List (LanguageCode × Nat)),
      ((objGet (l.foldl countsStep acc) lang).isSome = true ↔
        (objGet acc lang).isSome = true ∨ 0 < countLang l lang)
  | [], acc => by simp [countLang]
  | p :: t, acc => by
    rw [List.foldl_cons, counts_some_invariant lang t (countsStep acc p)]
    have hstep : (objGet (countsStep acc p) lang).isSome = true ↔
        (p.language = lang ∨ (objGet acc lang).isSome = true) := by
      unfold countsStep
      rw [objGet_objSet]
      by_cases h : p.language = lang <;> simp [h]
    have hcnt : countLang (p :: t) lang =
        (if p.language = lang then 1 else 0) + countLang t lang := by
      unfold countLang
      rw [List.filter_cons]
      by_cases h : p.language = lang <;> simp [h] <;> omega
    rw [hstep, hcnt]
    by_cases h : p.language = lang <;> simp [h] <;> omega

theorem counts_sum_invariant :
    ∀ (l : List PolyglotPostRec) (acc : List (LanguageCode × Nat)),
      ((l.foldl countsStep acc).map Prod.snd).sum =
        (acc.map Prod.snd).sum + l.length
  | [], acc => by simp
  | p :: t, acc => by
    rw [List.foldl_cons, counts_sum_invariant t (countsStep acc p)]
    unfold countsStep
    rw [sum_objSet]
    simp
    omega

/-- C2 counterexample: for the empty collection the reduce returns the
empty object — it contains no key at all, in particular no "jp" key mapped
to 0, contradicting "contains exactly the four keys ... never omitted". -/
theorem language_counts_cex :
    languageCounts [] = [] ∧
    objGet (languageCounts []) LanguageCode.jp = none ∧
    objGet (languageCounts []) LanguageCode.jp ≠ some 0 := by
  refine ⟨rfl, rfl, by decide⟩

/-- C2 amended: the language-count object contains exactly the languages
that occur in at least one record (a language with no records is omitted,
not stored as 0); each present key maps to the number of records bearing
that code; the stored values sum to the collection size; and the page's
`languageCounts[code] || 0` reads therefore yield the exact per-language
count, 0 included, for each of the four codes. -/
theorem language_counts_amended (l : List PolyglotPostRec) :
    (∀ lang, readCount (languageCounts l) lang = countLang l lang) ∧
    (∀ lang, ((objGet (languageCounts l) lang).isSome = true ↔
      0 < countLang l lang)) ∧
    ((languageCounts l).map Prod.snd).sum = l.length := by
  refine ⟨fun lang => ?_, fun lang => ?_, ?_⟩
  · rw [languageCounts, counts_read_invariant lang l []]
    simp [readCount, objGet]
  · rw [languageCounts, counts_some_invariant lang l []]
    simp [objGet]
  · rw [languageCounts, counts_sum_invariant l []]
    simp

/-! ### C3: effect of each query operation on its input collection

`Array.prototype.sort` sorts in place and returns the receiving array, so
after `allX.sort(cmp)` the module-level collection itself holds the
reordered records.  `filter`, `reduce`, `flatMap`/`Set`, and `slice` do
not modify their receiver.  Each operation is embedded as a function
returning (result, collection after the call).
-/

/-- `allWritingPosts.sort(cmp)` of writing/page.tsx. -/
def sortWritingCall (arr : List WritingPostRec) :
    List WritingPostRec × List WritingPostRec :=
  (sortedWriting arr, sortedWriting arr)

/-- `allPolyglotPosts.sort(cmp)` of polyglot/page.tsx. -/
def sortPolyglotCall (arr : List PolyglotPostRec) :
    List PolyglotPostRec × List PolyglotPostRec :=
  (sortedPolyglot arr, sortedPolyglot arr)

/-- `allProjects.sort(cmp)` of projects/page.tsx. -/
def sortProjectsCall (arr : List ProjectRec) :
    List ProjectRec × List ProjectRec :=
  (sortedProjects arr, sortedProjects arr)

/-- `filteredPosts` of polyglot/page.tsx lines 35-38, applied to the sorted
collection in scope. -/
def filteredPosts (sel : String) (sorted : List PolyglotPostRec) :
    List PolyglotPostRec :=
  if sel = "all" then sorted
  else sorted.filter (fun post => post.language.code == sel)

def filterCall (sel : String) (arr : List PolyglotPostRec) :
    List PolyglotPostRec × List PolyglotPostRec :=
  (filteredPosts sel arr, arr)

def countsCall (arr : List PolyglotPostRec) :
    List (LanguageCode × Nat) × List PolyglotPostRec :=
  (languageCounts arr, arr)

/-- First-occurrence deduplication: `Array.from(new Set(xs))` keeps the
first occurrence of each element, in order. -/
def dedupFirst : List String → List String
  | [] => []
  | a :: l => a :: (dedupFirst l).filter (fun b => b ≠ a)

/-- `allTags` of writing/page.tsx lines 35-43:
`Array.from(new Set(sortedPosts.flatMap(post => post.tags)))`. -/
def allTags (sorted : List WritingPostRec) : List String :=
  dedupFirst (sorted.flatMap (fun post => post.tags))

def tagsCall (arr : List WritingPostRec) :
    List String × List WritingPostRec :=
  (allTags arr, arr)

/-- `.slice(0, n)` applied to an already sorted collection (page.tsx lines
73-79 take the 3 most recent posts). -/
def recentCall (n : Nat) (sorted : List WritingPostRec) :
    List WritingPostRec × List WritingPostRec :=
  (sorted.take n, sorted)

/-- Two writing posts differing only in date, older one first. -/
def wOld : WritingPostRec := ⟨"old", 1, "d", [], none, "old", "/writing/old"⟩

def wNew : WritingPostRec := ⟨"new", 2, "d", [], none, "new", "/writing/new"⟩

/-- C3 counterexample: the chronological sort does not leave its input
collection unchanged — after `allWritingPosts.sort(...)` on the two-element
collection [older, newer], the collection holds [newer, older]. -/
theorem query_mutation_cex :
    (sortWritingCall [wOld, wNew]).2 = [wNew, wOld] ∧
    (sortWritingCall [wOld, wNew]).2 ≠ [wOld, wNew] := by
  refine ⟨by decide, by decide⟩

/-- C3 amended: the language filter, language counts, tag extraction and
most-recent-N operations leave their input collection unchanged; the three
sort operations are executed in place by `Array.prototype.sort`, so the
collection afterwards holds the same records (a permutation) rearranged
into sorted order rather than the original element order. -/
theorem query_ops_effects (lw : List WritingPostRec)
    (lp : List PolyglotPostRec) (lj : List ProjectRec) (sel : String)
    (n : Nat) :
    (sortWritingCall lw).2 = sortedWriting lw ∧
    ((sortWritingCall lw).2).Perm lw ∧
    (sortPolyglotCall lp).2 = sortedPolyglot lp ∧
    ((sortPolyglotCall lp).2).Perm lp ∧
    (sortProjectsCall lj).2 = sortedProjects lj ∧
    ((sortProjectsCall lj).2).Perm lj ∧
    (filterCall sel lp).2 = lp ∧
    (countsCall lp).2 = lp ∧
    (tagsCall lw).2 = lw ∧
    (recentCall n lw).2 = lw := by
  refine ⟨rfl, ?_, rfl, ?_, rfl, ?_, rfl, rfl, rfl, rfl⟩
  · exact List.perm_insertionSort chronoRW lw
  · exact List.perm_insertionSort chronoRP lp
  · exact List.perm_insertionSort projR lj

/-! ### C6: language filter -/

/-- Polyglot notes for the spec's worked example [jp, en, jp, es]. -/
def noteJp1 : PolyglotPostRec := ⟨"j1", 4, "d", .jp, "j1", "/polyglot/j1"⟩

def noteEn : PolyglotPostRec := ⟨"e1", 3, "d", .en, "e1", "/polyglot/e1"⟩

def noteJp2 : PolyglotPostRec := ⟨"j2", 2, "d", .jp, "j2", "/polyglot/j2"⟩

def noteEs : PolyglotPostRec := ⟨"s1", 1, "d", .es, "s1", "/polyglot/s1"⟩

/-- C6: the language filter returns the whole collection for selector
"all"; for a language-code selector it returns exactly the records bearing
that language (an order-preserving sublist, with membership characterised
exactly); on the worked example [jp, en, jp, es] with selector "jp" it
returns the two jp records in their original relative order. -/
theorem language_filter_spec (l : List PolyglotPostRec) (lang : LanguageCode) :
    filteredPosts "all" l = l ∧
    (filteredPosts lang.code l).Sublist l ∧
    (∀ p, p ∈ filteredPosts lang.code l ↔ p ∈ l ∧ p.language = lang) ∧
    filteredPosts "jp" [noteJp1, noteEn, noteJp2, noteEs] =
      [noteJp1, noteJp2] := by
  have hne : lang.code ≠ "all" := by cases lang <;> decide
  have hred : filteredPosts lang.code l =
      l.filter (fun post => post.language.code == lang.code) := by
    rw [filteredPosts, if_neg hne]
  refine ⟨by rw [filteredPosts, if_pos rfl], ?_, fun p => ?_, by decide⟩
  · rw [hred]
    exact List.filter_sublist l
  · rw [hred, List.mem_filter]
    constructor
    · rintro ⟨hm, hc⟩
      refine ⟨hm, ?_⟩
      revert hc
      cases p.language <;> cases lang <;> decide
    · rintro ⟨hm, hc⟩
      refine ⟨hm, ?_⟩
      rw [hc]
      simp

/-! ### C7: detail routes /writing/{slug} and /polyglot/{slug}

writing/[slug]/page.tsx: `const post = allWritingPosts.find((p) => p.slug
=== slug); if (!post) { notFound(); }` — and symmetrically for polyglot.
-/

/-- Outcome of rendering a detail page. -/
inductive PageOutcome (α : Type)
  | notFound
  | render (post : α)
deriving DecidableEq

/-- `WritingPostPage` of writing/[slug]/page.tsx lines 79-90. -/
def writingPostPage (coll : List WritingPostRec) (slug : String) :
    PageOutcome WritingPostRec :=
  match coll.find? (fun p => p.slug == slug) with
  | some post => .render post
  | none => .notFound

/-- `PolyglotPostPage` of polyglot/[slug]/page.tsx lines 77-84. -/
def polyglotPostPage (coll : List PolyglotPostRec) (slug : String) :
    PageOutcome PolyglotPostRec :=
  match coll.find? (fun p => p.slug == slug) with
  | some post => .render post
  | none => .notFound

theorem find_none_outcome (coll : List WritingPostRec) (slug : String)
    (h : ∀ p ∈ coll, p.slug ≠ slug) : writingPostPage coll slug = .notFound := by
  have hf : coll.find? (fun p => p.slug == slug) = none := by
    rw [List.find?_eq_none]
    intro p hp
    simp only [beq_iff_eq]
    exact h p hp
  rw [writingPostPage, hf]

theorem find_none_outcome_p (coll : List PolyglotPostRec) (slug : String)
    (h : ∀ p ∈ coll, p.slug ≠ slug) :
    polyglotPostPage coll slug = .notFound := by
  have hf : coll.find? (fun p => p.slug == slug) = none := by
    rw [List.find?_eq_none]
    intro p hp
    simp only [beq_iff_eq]
    exact h p hp
  rw [polyglotPostPage, hf]

/-- C7: requesting a slug no record carries resolves to the not-found
outcome (not a crash), and requesting a slug some record carries renders a
record of the collection bearing exactly that slug — for both detail
routes. -/
theorem detail_route_lookup (cw : List WritingPostRec)
    (cp : List PolyglotPostRec) (s : String) :
    ((∀ p ∈ cw, p.slug ≠ s) → writingPostPage cw s = .notFound) ∧
    ((∃ p ∈ cw, p.slug = s) →
      ∃ p, writingPostPage cw s = .render p ∧ p ∈ cw ∧ p.slug = s) ∧
    ((∀ p ∈ cp, p.slug ≠ s) → polyglotPostPage cp s = .notFound) ∧
    ((∃ p ∈ cp, p.slug = s) →
      ∃ p, polyglotPostPage cp s = .render p ∧ p ∈ cp ∧ p.slug = s) := by
  refine ⟨find_none_outcome cw s, ?_, find_none_outcome_p cp s, ?_⟩
  · rintro ⟨q, hq, hqs⟩
    cases hf : cw.find? (fun p => p.slug == s) with
    | none =>
      exfalso
      rw [List.find?_eq_none] at hf
      exact hf q hq (by simp [hqs])
    | some p =>
      refine ⟨p, ?_, List.mem_of_find?_eq_some hf, ?_⟩
      · rw [writingPostPage, hf]
      · have := List.find?_some hf
        simpa using this
  · rintro ⟨q, hq, hqs⟩
    cases hf : cp.find? (fun p => p.slug == s) with
    | none =>
      exfalso
      rw [List.find?_eq_none] at hf
      exact hf q hq (by simp [hqs])
    | some p =>
      refine ⟨p, ?_, List.mem_of_find?_eq_some hf, ?_⟩
      · rw [polyglotPostPage, hf]
      · have := List.find?_some hf
        simpa using this

/-- Witness for `detail_route_lookup` on one-element collections. -/
theorem detail_route_lookup_witness :
    writingPostPage [wOld] "missing" = .notFound ∧
    (∃ p, writingPostPage [wOld] "old" = .render p ∧ p ∈ [wOld] ∧
      p.slug = "old") ∧
    polyglotPostPage [noteJp1] "missing" = .notFound ∧
    (∃ p, polyglotPostPage [noteJp1] "j1" = .render p ∧ p ∈ [noteJp1] ∧
      p.slug = "j1") := by
  refine ⟨(detail_route_lookup [wOld] [noteJp1] "missing").1 (by decide),
    (detail_route_lookup [wOld] [noteJp1] "old").2.1 (by decide),
    (detail_route_lookup [wOld] [noteJp1] "missing").2.2.1 (by decide),
    (detail_route_lookup [wOld] [noteJp1] "j1").2.2.2 (by decide)⟩

/-! ### C8: the related-post soft reference in ProjectCard.tsx

ProjectCard renders its two related-post links under the guard
`{relatedPost && <Link href={`/writing/${relatedPost}`} ...>}` (lines
174-182 and 214-222): the guard tests only JavaScript truthiness of the
prop, never whether a WritingPost with that slug exists.
-/

/-- Whether ProjectCard renders the related-post link: the JSX guard
`relatedPost &&` (an absent prop and the empty string are falsy). -/
def relatedLinkRendered : Option String → Bool
  | none => false
  | some s => !(s == "")

/-- The href the rendered link carries. -/
def relatedLinkHref (relatedPost : String) : String :=
  "/writing/" ++ relatedPost

/-- C8 counterexample: with an empty WritingPost collection, a project
whose `relatedPost` is "ghost" is a dangling reference, yet ProjectCard
renders the link (pointing at "/writing/ghost", which resolves to the
not-found page) instead of omitting it. -/
theorem related_link_cex :
    relatedLinkRendered (some "ghost") = true ∧
    relatedLinkRendered (some "ghost") ≠ false ∧
    relatedLinkHref "ghost" = "/writing/ghost" ∧
    writingPostPage ([] : List WritingPostRec) "ghost" = .notFound := by
  refine ⟨rfl, by decide, rfl, rfl⟩

/-- C8 amended: consumers never crash on a dangling `relatedPost`, but they
do not validate it either: ProjectCard omits the link exactly when the prop
is absent or empty (JavaScript falsy) and renders it for any present
non-empty slug, dangling or not; following a dangling link lands on the
not-found page rather than an error. -/
theorem related_link_amended (rp : Option String) (coll : List WritingPostRec)
    (s : String) :
    relatedLinkRendered none = false ∧
    relatedLinkRendered (some "") = false ∧
    (relatedLinkRendered rp = true ↔ ∃ t, rp = some t ∧ t ≠ "") ∧
    ((∀ p ∈ coll, p.slug ≠ s) → writingPostPage coll s = .notFound) := by
  refine ⟨rfl, by decide, ?_, find_none_outcome coll s⟩
  cases rp with
  | none => simp [relatedLinkRendered]
  | some t =>
    simp only [relatedLinkRendered, Bool.not_eq_true']
    constructor
    · intro h
      refine ⟨t, rfl, ?_⟩
      intro he
      rw [he] at h
      simp at h
    · rintro ⟨u, hu, hne⟩
      cases hu
      simp [hne]

/-- Witness for `related_link_amended` at a dangling concrete reference. -/
theorem related_link_amended_witness :
    relatedLinkRendered none = false ∧
    relatedLinkRendered (some "") = false ∧
    (relatedLinkRendered (some "ghost") = true ↔
      ∃ t, some "ghost" = some t ∧ t ≠ "") ∧
    writingPostPage ([] : List WritingPostRec) "ghost" = .notFound := by
  have h := related_link_amended (some "ghost") [] "ghost"
  exact ⟨h.1, h.2.1, h.2.2.1, h.2.2.2 (by simp)⟩

/-! ### C9: schemas and materialization

The field schemas below are transcribed from contentlayer.config.ts.  The
materializer itself is the contentlayer library, which is not part of this
repository's sources; it is modelled from the spec (section 4.2).
-/

/-- Field types of the schema declarations: string, date, enum with its
options, list of strings, number. -/
inductive FieldType
  | str
  | date
  | enum (options : List String)
  | listStr
  | num
deriving DecidableEq

structure FieldSpec where
  ftype : FieldType
  required : Bool
deriving DecidableEq

/-- `WritingPost.fields` of contentlayer.config.ts lines 27-63. -/
def WritingPost.fields : List (String × FieldSpec) :=
  [("title", ⟨.str, true⟩),
   ("date", ⟨.date, true⟩),
   ("description", ⟨.str, true⟩),
   ("tags", ⟨.listStr, true⟩),
   ("image", ⟨.str, false⟩)]

/-- `PolyglotPost.fields` of contentlayer.config.ts lines 99-127. -/
def PolyglotPost.fields : List (String × FieldSpec) :=
  [("title", ⟨.str, true⟩),
   ("date", ⟨.date, true⟩),
   ("description", ⟨.str, true⟩),
   ("language", ⟨.enum ["jp", "kr", "en", "es"], true⟩)]

/-- `Project.fields` of contentlayer.config.ts lines 153-216. -/
def Project.fields : List (String × FieldSpec) :=
  [("title", ⟨.str, true⟩),
   ("description", ⟨.str, true⟩),
   ("technologies", ⟨.listStr, true⟩),
   ("github", ⟨.str, false⟩),
   ("liveUrl", ⟨.str, false⟩),
   ("image", ⟨.str, false⟩),
   ("order", ⟨.num, false⟩),
   ("status", ⟨.enum ["completed", "wip"], false⟩),
   ("relatedPost", ⟨.str, false⟩)]

inductive ContentKind
  | writingPost
  | polyglotNote
  | project
deriving DecidableEq

def getSchema : ContentKind → List (String × FieldSpec)
  | .writingPost => WritingPost.fields
  | .polyglotNote => PolyglotPost.fields
  | .project => Project.fields

/-- A runtime frontmatter value.  A date value carries the outcome of
parsing it into a calendar timestamp (`none` when unparseable),
abstracting the date parser the spec assumes. -/
inductive RawValue
  | str (s : String)
  | num (n : Int)
  | strList (l : List String)
  | dateVal (raw : String) (parsed : Option Int)
deriving DecidableEq

/-- Modelled from the spec: whether a runtime value matches a declared
field type, including enum membership for enum fields. -/
def valueMatches : FieldType → RawValue → Bool
  | .str, .str _ => true
  | .date, .dateVal _ (some _) => true
  | .enum options, .str s => options.contains s
  | .listStr, .strList _ => true
  | .num, .num _ => true
  | _, _ => false

/-- The error taxonomy of spec section 7 relevant to materialization. -/
inductive MatError
  | validationError (field : String) (reason : String)
  | malformedDate (field : String)
deriving DecidableEq

/-- Frontmatter lookup by field name (first binding wins). -/
def lookupFM (fm : List (String × RawValue)) (nm : String) : Option RawValue :=
  match fm.find? (fun kv => kv.1 == nm) with
  | some kv => some kv.2
  | none => none

/-- Modelled from the spec: the check the materializer performs for one
declared field — a missing required field or a present value that does not
match the declared type/enum yields a ValidationError naming the field, an
unparseable date value yields MalformedDate. -/
def checkField (fm : List (String × RawValue)) (nm : String)
    (sp : FieldSpec) : Option MatError :=
  match lookupFM fm nm with
  | none =>
    if sp.required then some (.validationError nm "missing required field")
    else none
  | some v =>
    if valueMatches sp.ftype v then none
    else
      match sp.ftype, v with
      | .date, .dateVal _ none => some (.malformedDate nm)
      | _, _ => some (.validationError nm "value does not match schema")

def fieldErrors (schema : List (String × FieldSpec))
    (fm : List (String × RawValue)) : List MatError :=
  schema.filterMap (fun kv => checkField fm kv.1 kv.2)

/-- The validated record: each declared field paired with its supplied
value. -/
def buildRecord (schema : List (String × FieldSpec))
    (fm : List (String × RawValue)) : List (String × RawValue) :=
  schema.filterMap (fun kv => (lookupFM fm kv.1).map (fun v => (kv.1, v)))

/-- Modelled from the spec: `materialize` — the record materializer
provided by the contentlayer library (absent from this repository's
sources).  It validates every declared field of the kind's schema against
the frontmatter and either fails with the collected field errors or
produces the validated record. -/
def materialize (schema : List (String × FieldSpec))
    (fm : List (String × RawValue)) :
    Except (List MatError) (List (String × RawValue)) :=
  if fieldErrors schema fm = [] then .ok (buildRecord schema fm)
  else .error (fieldErrors schema fm)

/-- Full conformance of a frontmatter to a schema: required fields present,
and every present declared field's value matching its declared type. -/
def conformsB (schema : List (String × FieldSpec))
    (fm : List (String × RawValue)) : Bool :=
  schema.all (fun kv =>
    match lookupFM fm kv.1 with
    | some v => valueMatches kv.2.ftype v
    | none => !kv.2.required)

/-- The claim's weaker premise: only the required fields are demanded to be
present and type-correct. -/
def requiredOnlyOkB (schema : List (String × FieldSpec))
    (fm : List (String × RawValue)) : Bool :=
  schema.all (fun kv =>
    !kv.2.required ||
      (match lookupFM fm kv.1 with
       | some v => valueMatches kv.2.ftype v
       | none => false))

theorem checkField_none_of_conforms (fm : List (String × RawValue))
    (nm : String) (sp : FieldSpec)
    (h : (match lookupFM fm nm with
          | some v => valueMatches sp.ftype v
          | none => !sp.required) = true) :
    checkField fm nm sp = none := by
  unfold checkField
  cases hl : lookupFM fm nm with
  | none =>
    rw [hl] at h
    simp only [Bool.not_eq_true'] at h
    simp [h]
  | some v =>
    rw [hl] at h
    have h' : valueMatches sp.ftype v = true := h
    simp [h']

/-- A Project frontmatter with every required field valid but the optional
`order` supplied as a string. -/
def badProjectFM : List (String × RawValue) :=
  [("title", .str "T"),
   ("description", .str "D"),
   ("technologies", .strList ["x"]),
   ("order", .str "first")]

/-- C9 counterexample: every required field of the Project schema is
present and type-correct in `badProjectFM`, yet materialization does not
succeed — the ill-typed optional `order` value fails validation, naming
"order". -/
theorem materialize_optional_mismatch_cex :
    requiredOnlyOkB (getSchema .project) badProjectFM = true ∧
    materialize (getSchema .project) badProjectFM =
      .error [.validationError "order" "value does not match schema"] := by
  exact ⟨rfl, rfl⟩

/-- C9 amended: materialization succeeds — with every required field
populated and type-correct in the record — when every required field is
present and type-correct (enum membership included) and, additionally,
every present optional field matches its declared type; a missing required
field always makes materialization fail with a ValidationError naming that
field among the reported errors. -/
theorem materialize_spec (k : ContentKind) (fm : List (String × RawValue)) :
    (conformsB (getSchema k) fm = true →
      ∃ r, materialize (getSchema k) fm = .ok r ∧
        ∀ nm sp, (nm, sp) ∈ getSchema k → sp.required = true →
          ∃ v, (nm, v) ∈ r ∧ valueMatches sp.ftype v = true) ∧
    (∀ nm sp, (nm, sp) ∈ getSchema k → sp.required = true →
      lookupFM fm nm = none →
        ∃ es, materialize (getSchema k) fm = .error es ∧
          MatError.validationError nm "missing required field" ∈ es) := by
  constructor
  · intro hc
    have herr : fieldErrors (getSchema k) fm = [] := by
      rw [fieldErrors, List.filterMap_eq_nil_iff]
      intro kv hkv
      exact checkField_none_of_conforms fm kv.1 kv.2
        (List.all_eq_true.mp hc kv hkv)
    refine ⟨buildRecord (getSchema k) fm, by simp [materialize, herr], ?_⟩
    intro nm sp hmem hreq
    have hkv := List.all_eq_true.mp hc (nm, sp) hmem
    cases hl : lookupFM fm nm with
    | none =>
      rw [hl] at hkv
      rw [hreq] at hkv
      simp at hkv
    | some v =>
      rw [hl] at hkv
      refine ⟨v, ?_, hkv⟩
      rw [buildRecord, List.mem_filterMap]
      exact ⟨(nm, sp), hmem, by simp [hl]⟩
  · intro nm sp hmem hreq hnone
    have hcf : checkField fm nm sp =
        some (.validationError nm "missing required field") := by
      unfold checkField
      rw [hnone, hreq]
      simp
    have hmemErr : MatError.validationError nm "missing required field" ∈
        fieldErrors (getSchema k) fm := by
      rw [fieldErrors, List.mem_filterMap]
      exact ⟨(nm, sp), hmem, hcf⟩
    have hne : fieldErrors (getSchema k) fm ≠ [] := by
      intro h0
      rw [h0] at hmemErr
      exact absurd hmemErr (List.not_mem_nil _)
    refine ⟨fieldErrors (getSchema k) fm, ?_, hmemErr⟩
    simp [materialize, hne]

/-- A fully valid PolyglotNote frontmatter. -/
def goodPolyglotFM : List (String × RawValue) :=
  [("title", .str "t"),
   ("date", .dateVal "2026-01-15" (some 1768435200000)),
   ("description", .str "d"),
   ("language", .str "jp")]

/-- The same frontmatter with the required `language` field missing. -/
def noLangPolyglotFM : List (String × RawValue) :=
  [("title", .str "t"),
   ("date", .dateVal "2026-01-15" (some 1768435200000)),
   ("description", .str "d")]

/-- Witness for `materialize_spec` at concrete PolyglotNote inputs. -/
theorem materialize_spec_witness :
    (∃ r, materialize (getSchema .polyglotNote) goodPolyglotFM = .ok r ∧
      ∀ nm sp, (nm, sp) ∈ getSchema .polyglotNote → sp.required = true →
        ∃ v, (nm, v) ∈ r ∧ valueMatches sp.ftype v = true) ∧
    (∃ es, materialize (getSchema .polyglotNote) noLangPolyglotFM = .error es ∧
      MatError.validationError "language" "missing required field" ∈ es) := by
  refine ⟨(materialize_spec .polyglotNote goodPolyglotFM).1 (by decide),
    (materialize_spec .polyglotNote noLangPolyglotFM).2 "language"
      ⟨.enum ["jp", "kr", "en", "es"], true⟩ (by decide) rfl rfl⟩
